import Mathlib

/-!
Verification of the interactive file-selection tree and its helpers from
`amalgamation-rs` (`src/interactive.rs`, `src/action.rs`).

The Rust data structures and functions are shallowly embedded:

* `FileTreeNode` mirrors the Rust struct of the same name (`path`,
  `is_dir`, `is_selected`, `is_expanded`, `children`); a Rust `String`
  path is a Lean `String`, a `Vec` of children is a `List`.
* Pure tree walks (`count_visible_nodes`, `create_tree_items`,
  `collect_selected_files`, `toggle_node_expansion`,
  `toggle_node_selection`) are translated function-for-function; the
  in-place mutation of `toggle_*` with the `&mut usize` running index is
  translated into explicit state passing: each recursive call returns the
  updated node, the remaining index, and the `found` flag that the Rust
  code returns as `bool`.
* Fallible and effectful code (`run_interactive_mode`, `write_files`) is
  embedded over explicit success/failure flags and an abstract file
  system, respectively.
-/

/-- Mirror of the Rust struct `FileTreeNode` from `src/interactive.rs`:
one filesystem entry with its path, directory flag, selection flag,
expansion flag, and the ordered list of children. -/
inductive FileTreeNode where
  | mk : String → Bool → Bool → Bool → List FileTreeNode → FileTreeNode

/-- Field accessor for `path`. -/
def FileTreeNode.path : FileTreeNode → String
  | .mk p _ _ _ _ => p

/-- Field accessor for `is_dir`. -/
def FileTreeNode.is_dir : FileTreeNode → Bool
  | .mk _ d _ _ _ => d

/-- Field accessor for `is_selected`. -/
def FileTreeNode.is_selected : FileTreeNode → Bool
  | .mk _ _ s _ _ => s

/-- Field accessor for `is_expanded`. -/
def FileTreeNode.is_expanded : FileTreeNode → Bool
  | .mk _ _ _ e _ => e

/-- Field accessor for `children`. -/
def FileTreeNode.children : FileTreeNode → List FileTreeNode
  | .mk _ _ _ _ cs => cs

/-- Computation rule for the `path` accessor. -/
@[simp] theorem FileTreeNode.path_mk (p : String) (d s e : Bool)
    (cs : List FileTreeNode) : (FileTreeNode.mk p d s e cs).path = p := rfl

/-- Computation rule for the `is_dir` accessor. -/
@[simp] theorem FileTreeNode.is_dir_mk (p : String) (d s e : Bool)
    (cs : List FileTreeNode) : (FileTreeNode.mk p d s e cs).is_dir = d := rfl

/-- Computation rule for the `is_selected` accessor. -/
@[simp] theorem FileTreeNode.is_selected_mk (p : String) (d s e : Bool)
    (cs : List FileTreeNode) : (FileTreeNode.mk p d s e cs).is_selected = s := rfl

/-- Computation rule for the `is_expanded` accessor. -/
@[simp] theorem FileTreeNode.is_expanded_mk (p : String) (d s e : Bool)
    (cs : List FileTreeNode) : (FileTreeNode.mk p d s e cs).is_expanded = e := rfl

/-- Computation rule for the `children` accessor. -/
@[simp] theorem FileTreeNode.children_mk (p : String) (d s e : Bool)
    (cs : List FileTreeNode) : (FileTreeNode.mk p d s e cs).children = cs := rfl

/-- Mirror of `FileTreeNode::new` (`src/interactive.rs`), restricted to the
in-memory result: whatever entries the filesystem enumeration produced
(already recursively built and sorted into `children`), the constructed
node always has `is_selected := true` and `is_expanded := false`. -/
def FileTreeNode.new (path : String) (is_dir : Bool)
    (children : List FileTreeNode) : FileTreeNode :=
  .mk path is_dir true false children

mutual

/-- Mirror of `count_visible_nodes` (`src/interactive.rs`): `1` for the node
itself plus, only when the node `is_expanded`, the counts of its children. -/
def count_visible_nodes : FileTreeNode → Nat
  | .mk _ _ _ e cs => 1 + (if e then count_visible_list cs else 0)

/-- The sum `node.children.iter().map(count_visible_nodes).sum()` from the
Rust body of `count_visible_nodes`, as a direct recursion over the list. -/
def count_visible_list : List FileTreeNode → Nat
  | [] => 0
  | c :: cs => count_visible_nodes c + count_visible_list cs

end

mutual

/-- Mirror of the nested function `build_items` inside `create_tree_items`
(`src/interactive.rs`). The Rust code pushes one rendered `ListItem` per
visited node (indentation from `depth`, icon and checkbox and name from the
node's fields); the embedding keeps the pushed sequence as the list of
`(depth, node)` pairs the rendering of each row is computed from, in the
exact push order: the node itself first, then, only when `is_expanded`,
the children at `depth + 1`. -/
def build_items : FileTreeNode → Nat → List (Nat × FileTreeNode)
  | .mk p d s e cs, depth =>
    (depth, .mk p d s e cs) :: (if e then build_items_list cs (depth + 1) else [])

/-- The `for child in &node.children` loop inside `build_items`. -/
def build_items_list : List FileTreeNode → Nat → List (Nat × FileTreeNode)
  | [], _ => []
  | c :: cs, depth => build_items c depth ++ build_items_list cs depth

end

/-- Mirror of `create_tree_items` (`src/interactive.rs`): the flattened
visible list, built by `build_items` starting at the root with depth 0. -/
def create_tree_items (node : FileTreeNode) : List (Nat × FileTreeNode) :=
  build_items node 0

/-- The nodes occupying the rows of the rendered list, in row order. -/
def row_nodes (node : FileTreeNode) : List (FileTreeNode) :=
  (create_tree_items node).map Prod.snd

mutual

/-- The shared index-resolution descent used by both `toggle_node_expansion`
and `toggle_node_selection` (`src/interactive.rs`), extracted as a pure
query: `if *index == 0` the current node is the resolved one (`.ok`);
otherwise the index is decremented and, only when the node `is_expanded`,
the children are searched in order; a subtree that does not contain the
index hands the remaining counter back (`.error`), exactly as the Rust
`toggle_recursive` returns `false` leaving the decremented `*index`. -/
def resolve_visible_index (node : FileTreeNode) (i : Nat) :
    Except Nat FileTreeNode :=
  match node, i with
  | n, 0 => .ok n
  | .mk _ _ _ e cs, i + 1 =>
    if e then resolve_visible_list cs i else .error i

/-- The `for child in &mut node.children` search loop of the descent:
try each child in order, threading the running index through the failures. -/
def resolve_visible_list (cs : List FileTreeNode) (i : Nat) :
    Except Nat FileTreeNode :=
  match cs with
  | [] => .error i
  | c :: cs =>
    match resolve_visible_index c i with
    | .ok n => .ok n
    | .error j => resolve_visible_list cs j

end

mutual

/-- The common recursion of `toggle_node_expansion` and
`toggle_node_selection` (`src/interactive.rs`): the two Rust
`toggle_recursive` helpers are textually identical except for the mutation
performed at `*index == 0`, so the embedding takes that mutation as the
parameter `f`. The `&mut` state is passed explicitly: the result is the
(possibly) updated node, the remaining index, and the `found` flag. -/
def toggle_walk (f : FileTreeNode → FileTreeNode) :
    FileTreeNode → Nat → FileTreeNode × Nat × Bool
  | n, 0 => (f n, 0, true)
  | .mk p d s e cs, i + 1 =>
    if e then
      match toggle_walk_list f cs i with
      | (cs', j, found) => (.mk p d s e cs', j, found)
    else (.mk p d s e cs, i, false)

/-- The `for child in &mut node.children` loop of `toggle_recursive`:
recurse into each child in order, stop at the first that reports `found`,
thread the decremented index through the others. -/
def toggle_walk_list (f : FileTreeNode → FileTreeNode) :
    List FileTreeNode → Nat → List FileTreeNode × Nat × Bool
  | [], i => ([], i, false)
  | c :: cs, i =>
    match toggle_walk f c i with
    | (c', j, true) => (c' :: cs, j, true)
    | (c', j, false) =>
      match toggle_walk_list f cs j with
      | (cs', k, found) => (c' :: cs', k, found)

end

/-- The mutation `toggle_node_expansion` performs at the resolved node:
flip `is_expanded`, but only for directories. -/
def toggle_expansion_action : FileTreeNode → FileTreeNode
  | .mk p d s e cs => if d then .mk p d s (!e) cs else .mk p d s e cs

/-- Setting `child.is_selected = value`, the per-child assignment of the
selection cascade. -/
def set_selected (value : Bool) : FileTreeNode → FileTreeNode
  | .mk p d _ e cs => .mk p d value e cs

/-- The mutation `toggle_node_selection` performs at the resolved node:
flip `is_selected`, and when the node is a directory assign the new value
to each direct child (the Rust loop `for child in &mut node.children
\x7b child.is_selected = node.is_selected \x7d`, which does not recurse). -/
def toggle_selection_action : FileTreeNode → FileTreeNode
  | .mk p d s e cs =>
    if d then .mk p d (!s) e (cs.map (set_selected (!s)))
    else .mk p d (!s) e cs

/-- Mirror of `toggle_node_expansion` (`src/interactive.rs`): run the
descent from the root with the expansion mutation; the Rust function
discards the final index and found flag and leaves the tree in place,
so the embedding returns the updated tree. -/
def toggle_node_expansion (root : FileTreeNode) (index : Nat) : FileTreeNode :=
  (toggle_walk toggle_expansion_action root index).1

/-- Mirror of `toggle_node_selection` (`src/interactive.rs`): run the
descent from the root with the selection mutation. -/
def toggle_node_selection (root : FileTreeNode) (index : Nat) : FileTreeNode :=
  (toggle_walk toggle_selection_action root index).1

mutual

/-- Mirror of `FileTreeNode::collect_selected_files` (`src/interactive.rs`):
the node's own path when it is a selected non-directory, followed by the
collection over the children, which is performed for directories
(non-directories have no children to visit). Expansion state is never
consulted. -/
def collect_selected_files : FileTreeNode → List String
  | .mk p d s _ cs =>
    (if !d && s then [p] else []) ++ (if d then collect_selected_list cs else [])

/-- The `for child in &self.children` loop of `collect_selected_files`. -/
def collect_selected_list : List FileTreeNode → List String
  | [] => []
  | c :: cs => collect_selected_files c ++ collect_selected_list cs

end

mutual

/-- The unrestricted pre-order listing of every node of the tree,
ignoring expansion: the reference ordering selected files are collected
in. -/
def preorder_nodes : FileTreeNode → List FileTreeNode
  | .mk p d s e cs => .mk p d s e cs :: preorder_list cs

/-- Pre-order listing of a forest. -/
def preorder_list : List FileTreeNode → List FileTreeNode
  | [] => []
  | c :: cs => preorder_nodes c ++ preorder_list cs

end

mutual

/-- The structural invariant `FileTreeNode::new` establishes: every
non-directory node has an empty `children` list (the Rust constructor
builds children only when `path.is_dir()`). -/
def well_formed : FileTreeNode → Bool
  | .mk _ d _ _ cs => (d || cs.isEmpty) && well_formed_list cs

/-- `well_formed` for every tree of a forest. -/
def well_formed_list : List FileTreeNode → Bool
  | [] => true
  | c :: cs => well_formed c && well_formed_list cs

end

/-- The arrow keys handled by the `KeyCode::Up` and `KeyCode::Down` arms of
`run_app` (`src/interactive.rs`). -/
inductive ArrowKey where
  | up
  | down

/-- Mirror of the cursor updates in the tree-focused `KeyCode::Up` and
`KeyCode::Down` arms of `run_app` (`src/interactive.rs`): up performs
`current.saturating_sub(1)` (truncated subtraction), down performs
`min(current + 1, count_visible_nodes(root) - 1)`. -/
def cursor_step (root : FileTreeNode) (current : Nat) : ArrowKey → Nat
  | .up => current - 1
  | .down => min (current + 1) (count_visible_nodes root - 1)

/-- Rust `str::trim_end_matches`, fuelled: as long as `pat` is a non-empty
suffix of `s`, remove that suffix and repeat. Each iteration shortens `s`
by at least one character, so `s.length` iterations always suffice to reach
the fixed point; the fuel only makes the recursion structural. -/
def trim_end_matches_fuel : Nat → List Char → List Char → List Char
  | 0, s, _ => s
  | fuel + 1, s, pat =>
    if !pat.isEmpty && pat.isSuffixOf s then
      trim_end_matches_fuel fuel (s.take (s.length - pat.length)) pat
    else s

/-- Rust `str::trim_end_matches(pat)`: repeatedly remove the trailing
occurrence of `pat` until the string no longer ends with it. A `&str` is
embedded as its list of characters. -/
def trim_end_matches (s pat : List Char) : List Char :=
  trim_end_matches_fuel s.length s pat

/-- Mirror of `resolve_url` (`src/action.rs`):
`url.trim_end_matches('/')` followed by `.trim_end_matches(".git")` —
first every trailing `'/'` character is removed, then every trailing
`".git"` occurrence, in that fixed order. -/
def resolve_url (url : List Char) : List Char :=
  trim_end_matches (trim_end_matches url ['/']) ['.', 'g', 'i', 't']

/-- What the filesystem reports for one input path of `write_files`:
not a regular file, a regular file that reads as the given text, or a
regular file whose `read_to_string` fails. -/
inductive FileKind where
  | notFile
  | text : String → FileKind
  | unreadable
deriving DecidableEq

/-- Observable outcome of one `write_files` invocation: the content of the
output file at return, the warnings printed to the diagnostic stream, and
whether the function returned `Ok`. -/
structure WriteResult where
  out : String
  warnings : List String
  ok : Bool

/-- The bytes one loop iteration of `write_files` (`src/action.rs`)
appends to the output file for the path `p`: nothing when `p` is not a
regular file (`continue`); otherwise the header line
(`writeln!` terminates it with a newline), followed — only when
`read_to_string` succeeds — by the content and a blank line
(`writeln!(output_file, "..n", content)` appends one newline beyond the
embedded one). The header is written before the read is attempted. -/
def write_files_block (fs : String → FileKind) (p : String) : String :=
  match fs p with
  | .notFile => ""
  | .text content => "// File: " ++ p ++ "\n" ++ content ++ "\n\n"
  | .unreadable => "// File: " ++ p ++ "\n"

/-- The diagnostic lines one loop iteration of `write_files` prints for
the path `p`: exactly one warning when `p` is a regular file whose
`read_to_string` fails, nothing otherwise. -/
def write_files_warnings (fs : String → FileKind) (p : String) : List String :=
  match fs p with
  | .unreadable => ["Warning: Could not read file " ++ p]
  | _ => []

/-- Mirror of `write_files` (`src/action.rs`) over an abstract filesystem
`fs`. `File::create` truncates, so the output file content at return is
exactly the concatenation of the blocks this invocation appends, in input
order, independent of any earlier content; warnings accumulate in the same
order; every read failure is caught inside the loop, so the function
returns `Ok` (output-stream writes are modelled as infallible). -/
def write_files (fs : String → FileKind) (files : List String) : WriteResult :=
  { out := (files.map (write_files_block fs)).foldr (· ++ ·) ""
  , warnings := (files.map (write_files_warnings fs)).flatten
  , ok := true }

/-- Terminal mode at a point in time: whether raw mode is enabled and
whether the alternate screen is active. -/
structure TermState where
  raw : Bool
  alt : Bool
deriving DecidableEq

/-- One flag per fallible step of `run_interactive_mode`
(`src/interactive.rs`), in source order, telling whether that call
returns `Ok`: `enable_raw_mode()`, `execute!(EnterAlternateScreen)`,
`Terminal::new`, `TempDir::new`, `download_repository`, `extract_zip`,
`fs::read_dir`, the `find`/`ok_or_else` repository-root lookup,
`FileTreeNode::new`, the `run_app` event loop, `disable_raw_mode()`, and
`execute!(LeaveAlternateScreen)`. -/
structure RunFlags where
  enableRawOk : Bool
  enterAltOk : Bool
  terminalNewOk : Bool
  tempDirOk : Bool
  downloadOk : Bool
  extractOk : Bool
  readDirOk : Bool
  rootFound : Bool
  treeOk : Bool
  appOk : Bool
  disableRawOk : Bool
  leaveAltOk : Bool

/-- Mirror of the control flow of `run_interactive_mode`
(`src/interactive.rs`): every fallible call is applied with `?` — except
`run_app`, whose result is captured in `result` and only returned after
the two teardown calls — so a failing step returns immediately with the
terminal state reached at that point. The value is the terminal state when
the function returns together with whether it returns `Ok`. -/
def run_interactive_mode (fl : RunFlags) : TermState × Bool :=
  if !fl.enableRawOk then ({ raw := false, alt := false }, false)
  else if !fl.enterAltOk then ({ raw := true, alt := false }, false)
  else if !fl.terminalNewOk then ({ raw := true, alt := true }, false)
  else if !fl.tempDirOk then ({ raw := true, alt := true }, false)
  else if !fl.downloadOk then ({ raw := true, alt := true }, false)
  else if !fl.extractOk then ({ raw := true, alt := true }, false)
  else if !fl.readDirOk then ({ raw := true, alt := true }, false)
  else if !fl.rootFound then ({ raw := true, alt := true }, false)
  else if !fl.treeOk then ({ raw := true, alt := true }, false)
  else if !fl.disableRawOk then ({ raw := true, alt := true }, false)
  else if !fl.leaveAltOk then ({ raw := false, alt := true }, false)
  else ({ raw := false, alt := false }, fl.appOk)

/-- Positivity of the visible count: every tree contributes at least the
row for its root. -/
theorem count_visible_pos (t : FileTreeNode) : 1 ≤ count_visible_nodes t := by
  match t with
  | .mk p d s e cs => simp [count_visible_nodes]

/-- The list helper of `count_visible_nodes` is the sum of the mapped
counts, as the Rust iterator chain writes it. -/
theorem count_visible_list_eq_sum_map (cs : List FileTreeNode) :
    count_visible_list cs = (cs.map count_visible_nodes).sum := by
  induction cs with
  | nil => rfl
  | cons c cs ih => simp [count_visible_list, ih]

mutual

theorem count_visible_eq_length_build (t : FileTreeNode) (d : Nat) :
    count_visible_nodes t = (build_items t d).length := by
  match t with
  | .mk p dd s e cs =>
    simp only [count_visible_nodes, build_items, List.length_cons]
    cases e with
    | true => simp [count_visible_list_eq_length_build cs (d + 1)]; omega
    | false => simp

theorem count_visible_list_eq_length_build (cs : List FileTreeNode) (d : Nat) :
    count_visible_list cs = (build_items_list cs d).length := by
  match cs with
  | [] => simp [count_visible_list, build_items_list]
  | c :: cs' =>
    simp only [count_visible_list, build_items_list, List.length_append]
    rw [count_visible_eq_length_build c d, count_visible_list_eq_length_build cs' d]

end

/-- Looking a zero-based row index up in a list of row nodes, with the
same observable outcome as the resolution descent: the row's node when the
index is in range, otherwise the amount by which the index overshoots. -/
def lookup_result (rows : List FileTreeNode) (i : Nat) : Except Nat FileTreeNode :=
  match rows[i]? with
  | some n => .ok n
  | none => .error (i - rows.length)

theorem lookup_result_nil (i : Nat) : lookup_result [] i = .error i := rfl

theorem lookup_result_cons_zero (x : FileTreeNode) (rows : List FileTreeNode) :
    lookup_result (x :: rows) 0 = .ok x := by
  simp [lookup_result]

theorem lookup_result_cons_succ (x : FileTreeNode) (rows : List FileTreeNode)
    (i : Nat) : lookup_result (x :: rows) (i + 1) = lookup_result rows i := by
  simp [lookup_result, Nat.succ_sub_succ]

theorem lookup_result_append (l1 l2 : List FileTreeNode) (i : Nat) :
    lookup_result (l1 ++ l2) i =
      match lookup_result l1 i with
      | .ok n => .ok n
      | .error j => lookup_result l2 j := by
  unfold lookup_result
  by_cases h : i < l1.length
  · rw [List.getElem?_append_left h, List.getElem?_eq_getElem h]
  · have hle : l1.length ≤ i := Nat.le_of_not_lt h
    rw [List.getElem?_append_right hle, List.getElem?_eq_none hle]
    simp only [List.length_append]
    cases l2[i - l1.length]? with
    | some n => rfl
    | none => simp [Nat.sub_sub]

mutual

theorem resolve_eq_lookup (t : FileTreeNode) (d i : Nat) :
    resolve_visible_index t i = lookup_result ((build_items t d).map Prod.snd) i := by
  match t, i with
  | .mk p dd s e cs, 0 =>
    simp [resolve_visible_index, build_items, lookup_result_cons_zero]
  | .mk p dd s e cs, i + 1 =>
    cases e with
    | true =>
      simp only [resolve_visible_index, build_items, if_true, List.map_cons,
        eq_self_iff_true]
      rw [lookup_result_cons_succ]
      exact resolve_eq_lookup_list cs (d + 1) i
    | false =>
      simp only [resolve_visible_index, build_items, Bool.false_eq_true,
        if_false, List.map_cons, List.map_nil]
      rw [lookup_result_cons_succ, lookup_result_nil]

theorem resolve_eq_lookup_list (cs : List FileTreeNode) (d i : Nat) :
    resolve_visible_list cs i =
      lookup_result ((build_items_list cs d).map Prod.snd) i := by
  match cs with
  | [] => simp [resolve_visible_list, build_items_list, lookup_result_nil]
  | c :: cs' =>
    simp only [resolve_visible_list, build_items_list, List.map_append]
    rw [lookup_result_append, resolve_eq_lookup c d i]
    cases lookup_result ((build_items c d).map Prod.snd) i with
    | ok n => rfl
    | error j => exact resolve_eq_lookup_list cs' d j

end

mutual

theorem toggle_walk_resolve_error (f : FileTreeNode → FileTreeNode)
    (t : FileTreeNode) (i j : Nat)
    (h : resolve_visible_index t i = .error j) :
    toggle_walk f t i = (t, j, false) := by
  match t, i with
  | .mk p d s e cs, 0 => simp [resolve_visible_index] at h
  | .mk p d s e cs, i + 1 =>
    cases e with
    | true =>
      simp only [resolve_visible_index, if_true, eq_self_iff_true] at h
      have hl := toggle_walk_list_resolve_error f cs i j h
      simp only [toggle_walk, if_true, eq_self_iff_true, hl]
    | false =>
      simp only [resolve_visible_index, Bool.false_eq_true, if_false,
        Except.error.injEq] at h
      subst h
      simp [toggle_walk]

theorem toggle_walk_list_resolve_error (f : FileTreeNode → FileTreeNode)
    (cs : List FileTreeNode) (i j : Nat)
    (h : resolve_visible_list cs i = .error j) :
    toggle_walk_list f cs i = (cs, j, false) := by
  match cs with
  | [] =>
    have hij : i = j := by simpa [resolve_visible_list] using h
    subst hij
    simp [toggle_walk_list]
  | c :: cs' =>
    simp only [resolve_visible_list] at h
    cases hres : resolve_visible_index c i with
    | ok n => rw [hres] at h; simp at h
    | error j' =>
      rw [hres] at h
      have h1 := toggle_walk_resolve_error f c i j' hres
      have h2 := toggle_walk_list_resolve_error f cs' j' j h
      simp only [toggle_walk_list, h1, h2]

end

mutual

theorem toggle_walk_resolve_ok (f : FileTreeNode → FileTreeNode)
    (t : FileTreeNode) (i : Nat) (n : FileTreeNode)
    (h : resolve_visible_index t i = .ok n) :
    ∃ t', toggle_walk f t i = (t', 0, true) ∧
      resolve_visible_index t' i = .ok (f n) := by
  match t, i with
  | t, 0 =>
    have ht : t = n := by simpa [resolve_visible_index] using h
    subst ht
    exact ⟨f t, by simp [toggle_walk], by simp [resolve_visible_index]⟩
  | .mk p d s e cs, i + 1 =>
    cases e with
    | true =>
      simp only [resolve_visible_index, if_true, eq_self_iff_true] at h
      obtain ⟨cs', hw, hr⟩ := toggle_walk_list_resolve_ok f cs i n h
      refine ⟨.mk p d s true cs', ?_, ?_⟩
      · simp [toggle_walk, hw]
      · simp [resolve_visible_index, hr]
    | false =>
      simp [resolve_visible_index] at h

theorem toggle_walk_list_resolve_ok (f : FileTreeNode → FileTreeNode)
    (cs : List FileTreeNode) (i : Nat) (n : FileTreeNode)
    (h : resolve_visible_list cs i = .ok n) :
    ∃ cs', toggle_walk_list f cs i = (cs', 0, true) ∧
      resolve_visible_list cs' i = .ok (f n) := by
  match cs with
  | [] => simp [resolve_visible_list] at h
  | c :: cs2 =>
    simp only [resolve_visible_list] at h
    cases hres : resolve_visible_index c i with
    | ok m =>
      rw [hres] at h
      have hmn : m = n := by simpa using h
      subst hmn
      obtain ⟨c', hw, hr⟩ := toggle_walk_resolve_ok f c i m hres
      exact ⟨c' :: cs2, by simp [toggle_walk_list, hw],
        by simp [resolve_visible_list, hr]⟩
    | error j =>
      rw [hres] at h
      obtain ⟨cs2', hw, hr⟩ := toggle_walk_list_resolve_ok f cs2 j n h
      have hcw := toggle_walk_resolve_error f c i j hres
      refine ⟨c :: cs2', ?_, ?_⟩
      · simp [toggle_walk_list, hcw, hw]
      · simp [resolve_visible_list, hres, hr]

end

mutual

theorem toggle_walk_comp (f g : FileTreeNode → FileTreeNode)
    (t : FileTreeNode) (i : Nat) (n : FileTreeNode)
    (h : resolve_visible_index t i = .ok n) :
    toggle_walk g (toggle_walk f t i).1 i = toggle_walk (fun x => g (f x)) t i := by
  match t, i with
  | t, 0 => simp [toggle_walk]
  | .mk p d s e cs, i + 1 =>
    cases e with
    | true =>
      simp only [resolve_visible_index, if_true, eq_self_iff_true] at h
      have hl := toggle_walk_list_comp f g cs i n h
      rcases hfw : toggle_walk_list f cs i with ⟨csf, jf, fdf⟩
      rcases hgf : toggle_walk_list (fun x => g (f x)) cs i with ⟨csgf, jgf, fdgf⟩
      rw [hfw, hgf] at hl
      simp only [toggle_walk, if_true, eq_self_iff_true, hfw, hgf, hl]
    | false =>
      simp [resolve_visible_index] at h

theorem toggle_walk_list_comp (f g : FileTreeNode → FileTreeNode)
    (cs : List FileTreeNode) (i : Nat) (n : FileTreeNode)
    (h : resolve_visible_list cs i = .ok n) :
    toggle_walk_list g (toggle_walk_list f cs i).1 i
      = toggle_walk_list (fun x => g (f x)) cs i := by
  match cs with
  | [] => simp [resolve_visible_list] at h
  | c :: cs2 =>
    simp only [resolve_visible_list] at h
    cases hres : resolve_visible_index c i with
    | ok m =>
      obtain ⟨cf, hwf, _⟩ := toggle_walk_resolve_ok f c i m hres
      obtain ⟨cgf, hwgf, _⟩ := toggle_walk_resolve_ok (fun x => g (f x)) c i m hres
      have hc := toggle_walk_comp f g c i m hres
      rw [hwf, hwgf] at hc
      simp only [toggle_walk_list, hwf, hwgf, hc]
    | error j =>
      have hce := toggle_walk_resolve_error f c i j hres
      have hce2 := toggle_walk_resolve_error (fun x => g (f x)) c i j hres
      have hceg := toggle_walk_resolve_error g c i j hres
      rw [hres] at h
      have hl := toggle_walk_list_comp f g cs2 j n h
      rcases hfw : toggle_walk_list f cs2 j with ⟨csf, jf, fdf⟩
      rcases hgf : toggle_walk_list (fun x => g (f x)) cs2 j with ⟨csgf, jgf, fdgf⟩
      rw [hfw, hgf] at hl
      simp only [toggle_walk_list, hce, hce2, hceg, hfw, hgf, hl]

end

mutual

theorem toggle_walk_fix (f : FileTreeNode → FileTreeNode)
    (t : FileTreeNode) (i : Nat) (n : FileTreeNode)
    (h : resolve_visible_index t i = .ok n) (hfix : f n = n) :
    toggle_walk f t i = (t, 0, true) := by
  match t, i with
  | t, 0 =>
    have ht : t = n := by simpa [resolve_visible_index] using h
    subst ht
    simp [toggle_walk, hfix]
  | .mk p d s e cs, i + 1 =>
    cases e with
    | true =>
      simp only [resolve_visible_index, if_true, eq_self_iff_true] at h
      have hl := toggle_walk_list_fix f cs i n h hfix
      simp only [toggle_walk, if_true, eq_self_iff_true, hl]
    | false =>
      simp [resolve_visible_index] at h

theorem toggle_walk_list_fix (f : FileTreeNode → FileTreeNode)
    (cs : List FileTreeNode) (i : Nat) (n : FileTreeNode)
    (h : resolve_visible_list cs i = .ok n) (hfix : f n = n) :
    toggle_walk_list f cs i = (cs, 0, true) := by
  match cs with
  | [] => simp [resolve_visible_list] at h
  | c :: cs2 =>
    simp only [resolve_visible_list] at h
    cases hres : resolve_visible_index c i with
    | ok m =>
      rw [hres] at h
      have hmn : m = n := by simpa using h
      subst hmn
      have hc := toggle_walk_fix f c i m hres hfix
      simp only [toggle_walk_list, hc]
    | error j =>
      rw [hres] at h
      have hce := toggle_walk_resolve_error f c i j hres
      have hl := toggle_walk_list_fix f cs2 j n h hfix
      simp only [toggle_walk_list, hce, hl]

end

/-- A row index at or beyond the visible count resolves to nothing: the
descent walks off the end of the visible pre-order and reports the
left-over counter. -/
theorem resolve_overflow (t : FileTreeNode) (i : Nat)
    (h : count_visible_nodes t ≤ i) :
    resolve_visible_index t i = .error (i - count_visible_nodes t) := by
  have hlen : ((build_items t 0).map Prod.snd).length = count_visible_nodes t := by
    rw [List.length_map, ← count_visible_eq_length_build]
  rw [resolve_eq_lookup t 0 i]
  unfold lookup_result
  rw [List.getElem?_eq_none (by rw [hlen]; exact h), hlen]

/-- A toggle walk launched at a row index at or beyond the visible count
leaves the tree untouched and reports not-found. -/
theorem toggle_walk_overflow (f : FileTreeNode → FileTreeNode)
    (t : FileTreeNode) (i : Nat) (h : count_visible_nodes t ≤ i) :
    toggle_walk f t i = (t, i - count_visible_nodes t, false) :=
  toggle_walk_resolve_error f t i _ (resolve_overflow t i h)

mutual

theorem collect_eq_filter (t : FileTreeNode) (h : well_formed t = true) :
    collect_selected_files t =
      ((preorder_nodes t).filter (fun n => !n.is_dir && n.is_selected)).map
        FileTreeNode.path := by
  match t with
  | .mk p d s e cs =>
    simp only [well_formed, Bool.and_eq_true] at h
    obtain ⟨h1, h2⟩ := h
    cases d with
    | true =>
      simp only [collect_selected_files, preorder_nodes, List.filter_cons,
        FileTreeNode.is_dir_mk, FileTreeNode.is_selected_mk, Bool.not_true,
        Bool.false_and, if_true, eq_self_iff_true]
      rw [collect_list_eq_filter cs h2]
      simp
    | false =>
      have hcs : cs = [] := by simpa using h1
      subst hcs
      simp only [collect_selected_files, preorder_nodes, preorder_list,
        List.filter_cons, FileTreeNode.is_dir_mk, FileTreeNode.is_selected_mk,
        Bool.not_false, Bool.true_and]
      cases s <;> simp

theorem collect_list_eq_filter (cs : List FileTreeNode)
    (h : well_formed_list cs = true) :
    collect_selected_list cs =
      ((preorder_list cs).filter (fun n => !n.is_dir && n.is_selected)).map
        FileTreeNode.path := by
  match cs with
  | [] => simp [collect_selected_list, preorder_list]
  | c :: cs2 =>
    simp only [well_formed_list, Bool.and_eq_true] at h
    simp only [collect_selected_list, preorder_list, List.filter_append,
      List.map_append]
    rw [collect_eq_filter c h.1, collect_list_eq_filter cs2 h.2]

end

/-- Overwriting a selection flag twice keeps only the last value. -/
theorem set_selected_set_selected (a b : Bool) (c : FileTreeNode) :
    set_selected a (set_selected b c) = set_selected a c := by
  cases c with
  | mk p d s e cs => rfl

/-- The per-child assignment touches only `is_selected`. -/
theorem set_selected_is_selected (a : Bool) (c : FileTreeNode) :
    (set_selected a c).is_selected = a := by
  cases c with
  | mk p d s e cs => rfl

/-- The per-child assignment leaves the child's own subtree untouched. -/
theorem set_selected_children (a : Bool) (c : FileTreeNode) :
    (set_selected a c).children = c.children := by
  cases c with
  | mk p d s e cs => rfl

/-- Assigning a node the selection value it already carries is the
identity. -/
theorem set_selected_self (a : Bool) (c : FileTreeNode)
    (h : c.is_selected = a) : set_selected a c = c := by
  cases c with
  | mk p d s e cs =>
    simp only [FileTreeNode.is_selected_mk] at h
    subst h
    rfl

/-- Once the fuelled trimming loop stops, the pattern is no longer a
suffix, for any fuel at least the length of the string (one character is
removed per iteration, so the fuel never runs out first). -/
theorem trim_fuel_no_suffix (fuel : Nat) (s pat : List Char)
    (hpat : pat ≠ []) (hfuel : s.length ≤ fuel) :
    pat.isSuffixOf (trim_end_matches_fuel fuel s pat) = false := by
  induction fuel generalizing s with
  | zero =>
    have hs : s = [] := List.length_eq_zero.mp (Nat.le_zero.mp hfuel)
    subst hs
    cases pat with
    | nil => exact absurd rfl hpat
    | cons a as => simp [trim_end_matches_fuel]
  | succ fuel ih =>
    simp only [trim_end_matches_fuel]
    by_cases hc : (!pat.isEmpty && pat.isSuffixOf s) = true
    · rw [if_pos hc]
      apply ih
      have hsuf : pat <:+ s :=
        List.isSuffixOf_iff_suffix.mp ((Bool.and_eq_true _ _).mp hc).2
      have hple : pat.length ≤ s.length := hsuf.length_le
      have hppos : 0 < pat.length := List.length_pos.mpr hpat
      simp only [List.length_take]
      omega
    · rw [if_neg hc]
      have hne : pat.isEmpty = false := by
        cases pat with
        | nil => exact absurd rfl hpat
        | cons a as => rfl
      cases hsuf : pat.isSuffixOf s with
      | false => rfl
      | true => exact absurd (by simp [hne, hsuf]) hc

/-- Trimming is the identity when the pattern is not a suffix. -/
theorem trim_of_no_suffix (s pat : List Char)
    (h : pat.isSuffixOf s = false) :
    trim_end_matches s pat = s := by
  unfold trim_end_matches
  cases hl : s.length with
  | zero => simp [trim_end_matches_fuel]
  | succ m => simp [trim_end_matches_fuel, h]

/-- The result of trimming never ends with the (non-empty) pattern. -/
theorem trim_no_suffix (s pat : List Char) (hpat : pat ≠ []) :
    pat.isSuffixOf (trim_end_matches s pat) = false :=
  trim_fuel_no_suffix s.length s pat hpat (Nat.le_refl _)

/-- Example tree used by concrete witnesses: a root directory (expanded)
with one selected file child and one collapsed subdirectory holding a
deselected grandchild file. Three rows are visible: root, file, subdir. -/
def exampleTree : FileTreeNode :=
  .mk "r" true true true
    [.mk "r/f" false true false [],
     .mk "r/d" true true false [.mk "r/d/g" false false false []]]

/-- C3: for every tree state and zero-based row index, the node located by
the index-resolution descent shared by toggle expansion and toggle
selection is exactly the node occupying that row of the rendered flattened
list — the resolution succeeds precisely on in-range rows, and then
returns the row's node: index-resolution order equals render order. -/
theorem claim_c3_resolution_matches_render_order (t : FileTreeNode)
    (i : Nat) (n : FileTreeNode) :
    resolve_visible_index t i = .ok n ↔ (row_nodes t)[i]? = some n := by
  rw [resolve_eq_lookup t 0 i]
  unfold lookup_result row_nodes create_tree_items
  cases hx : ((build_items t 0).map Prod.snd)[i]? with
  | some m => simp
  | none => simp

/-- C4: `count_visible_nodes` satisfies the recurrence `1` plus, only when
expanded, the sum over the children, and it equals the number of rows the
pre-order flattening restricted to expanded branches produces. -/
theorem claim_c4_count_visible_recurrence_and_rows (t : FileTreeNode) :
    count_visible_nodes t
        = 1 + (if t.is_expanded then (t.children.map count_visible_nodes).sum
               else 0) ∧
    count_visible_nodes t = (create_tree_items t).length := by
  constructor
  · cases t with
    | mk p d s e cs =>
      simp [count_visible_nodes, count_visible_list_eq_sum_map]
  · rw [create_tree_items]
    exact count_visible_eq_length_build t 0

/-- Freshly constructed root used by the C6 counterexample: a directory
with one file child, exactly as `FileTreeNode::new` builds it (all nodes
selected, all nodes collapsed). -/
def freshRoot : FileTreeNode :=
  FileTreeNode.new "root" true [FileTreeNode.new "root/a" false []]

/-- C6 (counterexample): the claim says the root's children are always
visited regardless of the root's own `is_expanded` flag, so immediately
after construction the visible list would already contain the root's
direct child. On this freshly constructed root the child exists, yet the
rendered list holds only the root row and the visible count is 1: the
root's `is_expanded = false` is consulted and suppresses its children. -/
theorem claim_c6_counterexample :
    freshRoot.children ≠ [] ∧
    row_nodes freshRoot = [freshRoot] ∧
    count_visible_nodes freshRoot = 1 := by
  refine ⟨?_, rfl, rfl⟩
  simp [freshRoot, FileTreeNode.new]

/-- C6 (amended): the root is treated like every other node — its children
are visited only when its own `is_expanded` flag is true, and construction
sets that flag to false — so immediately after construction the visible
list contains exactly the root row. -/
theorem claim_c6_amended_root_not_implicitly_expanded :
    (∀ (p : String) (d : Bool) (cs : List FileTreeNode),
        (FileTreeNode.new p d cs).is_expanded = false) ∧
    (∀ t : FileTreeNode, t.is_expanded = false →
        row_nodes t = [t] ∧ count_visible_nodes t = 1) := by
  constructor
  · intro p d cs
    rfl
  · intro t ht
    cases t with
    | mk p d s e cs =>
      simp only [FileTreeNode.is_expanded_mk] at ht
      subst ht
      constructor
      · simp [row_nodes, create_tree_items, build_items]
      · simp [count_visible_nodes]

/-- C6 (witness): the amended statement applied to the concrete fresh
root. -/
theorem claim_c6_amended_witness :
    (FileTreeNode.new "root" true [FileTreeNode.new "root/a" false []]).is_expanded
        = false ∧
    row_nodes freshRoot = [freshRoot] ∧
    count_visible_nodes freshRoot = 1 := by
  have h := claim_c6_amended_root_not_implicitly_expanded
  have h1 : freshRoot.is_expanded = false :=
    h.1 "root" true [FileTreeNode.new "root/a" false []]
  have h2 := h.2 freshRoot h1
  exact ⟨h1, h2.1, h2.2⟩

/-- C9: starting from a cursor within `[0, count_visible_nodes root - 1]`,
any finite sequence of up and down key events keeps the cursor within that
range, each up event computing `max (cursor - 1) 0` (the saturating
decrement) and each down event `min (cursor + 1) (count - 1)`. -/
theorem claim_c9_cursor_stays_in_range (t : FileTreeNode) (c : Nat)
    (keys : List ArrowKey) (h : c ≤ count_visible_nodes t - 1) :
    List.foldl (cursor_step t) c keys ≤ count_visible_nodes t - 1 ∧
    (∀ x : Nat, cursor_step t x .up = max (x - 1) 0) ∧
    (∀ x : Nat, cursor_step t x .down = min (x + 1) (count_visible_nodes t - 1)) := by
  refine ⟨?_, fun x => by simp [cursor_step], fun x => rfl⟩
  induction keys generalizing c with
  | nil => exact h
  | cons k ks ih =>
    apply ih
    cases k with
    | up => exact Nat.le_trans (Nat.sub_le c 1) h
    | down => exact Nat.min_le_right _ _

/-- C9 (witness): the bound instantiated on the example tree (3 visible
rows) with the cursor at 0 and a concrete key sequence. -/
theorem claim_c9_witness :
    0 ≤ count_visible_nodes exampleTree - 1 ∧
    List.foldl (cursor_step exampleTree) 0
        [ArrowKey.down, ArrowKey.down, ArrowKey.down, ArrowKey.up]
      ≤ count_visible_nodes exampleTree - 1 := by
  have h := claim_c9_cursor_stays_in_range exampleTree 0
    [ArrowKey.down, ArrowKey.down, ArrowKey.down, ArrowKey.up] (Nat.zero_le _)
  exact ⟨Nat.zero_le _, h.1⟩

/-- C10: a row index at or beyond the visible count (reachable, since
collapsing a subtree shrinks the visible list under the cursor) makes both
toggles return with the tree completely unchanged — every node's path,
flags and children are exactly as before (and, the walks being total
functions, they terminate on every input). -/
theorem claim_c10_out_of_range_toggle_is_noop (t : FileTreeNode) (i : Nat)
    (h : count_visible_nodes t ≤ i) :
    toggle_node_expansion t i = t ∧ toggle_node_selection t i = t := by
  unfold toggle_node_expansion toggle_node_selection
  rw [toggle_walk_overflow _ t i h, toggle_walk_overflow _ t i h]
  exact ⟨rfl, rfl⟩

/-- C10 (witness): the no-op applied to the example tree at the
out-of-range row 5 (only rows 0..2 are visible). -/
theorem claim_c10_witness :
    count_visible_nodes exampleTree ≤ 5 ∧
    toggle_node_expansion exampleTree 5 = exampleTree ∧
    toggle_node_selection exampleTree 5 = exampleTree := by
  have h := claim_c10_out_of_range_toggle_is_noop exampleTree 5 (by decide)
  exact ⟨by decide, h.1, h.2⟩

/-- C7: on every well-formed tree (non-directories have no children, as
construction guarantees), collecting selected files returns exactly the
paths of the non-directory nodes whose `is_selected` is true, at every
depth and regardless of expansion state, in the unrestricted pre-order of
the tree: no directory and no deselected node ever appears, and nodes
under collapsed directories are included. -/
theorem claim_c7_collect_selected_files (t : FileTreeNode)
    (h : well_formed t = true) :
    collect_selected_files t =
      ((preorder_nodes t).filter (fun n => !n.is_dir && n.is_selected)).map
        FileTreeNode.path :=
  collect_eq_filter t h

/-- C7 (witness): the characterization applied to the example tree, whose
selected file is returned and whose hidden deselected grandchild and
directories are not. -/
theorem claim_c7_witness :
    well_formed exampleTree = true ∧
    collect_selected_files exampleTree =
      ((preorder_nodes exampleTree).filter
        (fun n => !n.is_dir && n.is_selected)).map FileTreeNode.path :=
  ⟨by decide, claim_c7_collect_selected_files exampleTree (by decide)⟩

/-- Concrete tree for the C1 counterexample: a root directory with a
subdirectory child holding a selected grandchild file; every node starts
selected. -/
def deepTree : FileTreeNode :=
  .mk "r" true true true
    [.mk "r/d" true true false [.mk "r/d/g" false true false []]]

/-- C1 (counterexample): toggling selection at row 0 (the root directory)
flips the root's `is_selected` from true to false, and the claim demands
the new value false be assigned to every node of the subtree at every
depth — so the grandchild file's flag would have to read false. The code
assigns the value to direct children only: the grandchild keeps `true`. -/
theorem claim_c1_counterexample :
    (toggle_node_selection deepTree 0).is_selected = false ∧
    ((toggle_node_selection deepTree 0).children.map
        (fun c => c.children.map FileTreeNode.is_selected)) = [[true]] :=
  ⟨rfl, rfl⟩

/-- C1 (amended): toggling selection at a row that resolves to a directory
flips that directory's `is_selected` and assigns the new value to its
direct children only; each child's own subtree — every grandchild and
deeper descendant — is left untouched. Toggling the same row again
restores the directory's flag and assigns the directory's original value
to every direct child; when every direct child already carried the
directory's value beforehand, the double toggle restores the whole tree
exactly. -/
theorem claim_c1_amended_selection_cascades_one_level (t : FileTreeNode)
    (i : Nat) (n : FileTreeNode)
    (hres : resolve_visible_index t i = .ok n) (hdir : n.is_dir = true) :
    resolve_visible_index (toggle_node_selection t i) i
        = .ok (toggle_selection_action n) ∧
    (toggle_selection_action n).is_selected = !n.is_selected ∧
    (toggle_selection_action n).children
        = n.children.map (set_selected (!n.is_selected)) ∧
    ((toggle_selection_action n).children.map FileTreeNode.children)
        = n.children.map FileTreeNode.children ∧
    resolve_visible_index
        (toggle_node_selection (toggle_node_selection t i) i) i
        = .ok (toggle_selection_action (toggle_selection_action n)) ∧
    (toggle_selection_action (toggle_selection_action n)).is_selected
        = n.is_selected ∧
    (toggle_selection_action (toggle_selection_action n)).children
        = n.children.map (set_selected n.is_selected) ∧
    ((∀ c ∈ n.children, c.is_selected = n.is_selected) →
        toggle_node_selection (toggle_node_selection t i) i = t) := by
  obtain ⟨t1, hw1, hr1⟩ := toggle_walk_resolve_ok toggle_selection_action t i n hres
  have ht1 : toggle_node_selection t i = t1 := by
    unfold toggle_node_selection
    rw [hw1]
  obtain ⟨t2, hw2, hr2⟩ :=
    toggle_walk_resolve_ok toggle_selection_action t1 i _ hr1
  have ht2 : toggle_node_selection t1 i = t2 := by
    unfold toggle_node_selection
    rw [hw2]
  rcases n with ⟨p, d, s, e, cs⟩
  simp only [FileTreeNode.is_dir_mk] at hdir
  subst hdir
  refine ⟨?_, ?_, ?_, ?_, ?_, ?_, ?_, ?_⟩
  · rw [ht1]
    exact hr1
  · simp [toggle_selection_action]
  · simp [toggle_selection_action]
  · simp only [toggle_selection_action, if_true, eq_self_iff_true,
      FileTreeNode.children_mk, List.map_map]
    apply List.map_congr_left
    intro c hc
    simp [set_selected_children]
  · rw [ht1, ht2]
    exact hr2
  · simp [toggle_selection_action, List.map_map]
  · simp only [toggle_selection_action, if_true, eq_self_iff_true,
      FileTreeNode.children_mk, FileTreeNode.is_selected_mk, List.map_map,
      Bool.not_not]
    apply List.map_congr_left
    intro c hc
    simp [Function.comp, set_selected_set_selected, Bool.not_not]
  · intro hall
    have hfix : toggle_selection_action
        (toggle_selection_action (FileTreeNode.mk p true s e cs))
        = FileTreeNode.mk p true s e cs := by
      simp only [toggle_selection_action, if_true, eq_self_iff_true,
        List.map_map, Bool.not_not]
      have hmap : cs.map (set_selected s ∘ set_selected (!s)) = cs := by
        have hid : cs.map (set_selected s ∘ set_selected (!s)) = cs.map id := by
          apply List.map_congr_left
          intro c hc
          simp only [Function.comp_apply, id_eq]
          rw [set_selected_set_selected, set_selected_self s c (hall c hc)]
        rw [hid, List.map_id]
      rw [hmap]
    have hcomp := toggle_walk_comp toggle_selection_action
      toggle_selection_action t i (FileTreeNode.mk p true s e cs) hres
    unfold toggle_node_selection
    rw [hcomp, toggle_walk_fix _ t i (FileTreeNode.mk p true s e cs) hres hfix]

/-- C1 (witness): the amended statement applied to `deepTree` at row 0,
which resolves to the root directory. -/
theorem claim_c1_amended_witness :
    resolve_visible_index deepTree 0 = Except.ok deepTree ∧
    deepTree.is_dir = true ∧
    resolve_visible_index (toggle_node_selection deepTree 0) 0
        = Except.ok (toggle_selection_action deepTree) :=
  ⟨rfl, rfl,
    (claim_c1_amended_selection_cascades_one_level deepTree 0 deepTree rfl rfl).1⟩

/-- Run flags with every fallible step of `run_interactive_mode`
succeeding. -/
def allOkFlags : RunFlags :=
  ⟨true, true, true, true, true, true, true, true, true, true, true, true⟩

/-- Run flags where the repository download fails and everything else
would succeed. -/
def downloadFailFlags : RunFlags :=
  ⟨true, true, true, true, false, true, true, true, true, true, true, true⟩

/-- Run flags where the `run_app` event loop returns an error and every
other step succeeds. -/
def appErrorFlags : RunFlags :=
  ⟨true, true, true, true, true, true, true, true, true, false, true, true⟩

/-- C2: when `download_repository` fails after raw mode and the alternate
screen were entered, `run_interactive_mode` returns with raw mode still
enabled and the alternate screen still active — the `?` on the pre-loop
pipeline steps (download, extraction, repository-root lookup, tree
construction) returns before `disable_raw_mode`/`LeaveAlternateScreen`
are reached, contradicting the claim that cleanup runs on every exit
path. Teardown does run when the failure comes from the event loop body,
and on success. -/
theorem claim_c2_preloop_error_skips_teardown :
    run_interactive_mode downloadFailFlags = ({ raw := true, alt := true }, false) ∧
    run_interactive_mode appErrorFlags = ({ raw := false, alt := false }, false) ∧
    run_interactive_mode allOkFlags = ({ raw := false, alt := false }, true) :=
  ⟨rfl, rfl, rfl⟩

/-- Concrete URL for the C5 counterexample, the character list of the
string with an `a`, a slash, then `.git`. -/
def slashGitUrl : List Char := ['a', '/', '.', 'g', 'i', 't']

/-- C5 (counterexample): the claim says at most one trailing slash and at
most one trailing `.git` are stripped, idempotently. The code strips all
repetitions — two trailing slashes both disappear — and it is not
idempotent: stripping the `.git` of `a/.git` exposes a trailing slash that
only a second resolution removes, so resolving twice differs from
resolving once. -/
theorem claim_c5_counterexample :
    resolve_url ['b', '/', '/'] = ['b'] ∧
    resolve_url slashGitUrl = ['a', '/'] ∧
    resolve_url (resolve_url slashGitUrl) ≠ resolve_url slashGitUrl := by
  refine ⟨by decide, by decide, by decide⟩

/-- C5 (amended): `resolve_url` strips all (possibly several) trailing
slashes and then all trailing `.git` occurrences, in that fixed order; its
result never ends in `.git`, and it is idempotent on every input whose
result does not end in a slash (a trailing slash can only be exposed by a
stripped `.git`, as in `a/.git`). -/
theorem claim_c5_amended_conditional_idempotence (u : List Char)
    (h : (['/'] : List Char).isSuffixOf (resolve_url u) = false) :
    (['.', 'g', 'i', 't'] : List Char).isSuffixOf (resolve_url u) = false ∧
    resolve_url (resolve_url u) = resolve_url u := by
  have hgit : (['.', 'g', 'i', 't'] : List Char).isSuffixOf (resolve_url u)
      = false := by
    unfold resolve_url
    exact trim_no_suffix _ _ (by simp)
  refine ⟨hgit, ?_⟩
  have h2 : trim_end_matches (resolve_url u) ['/'] = resolve_url u :=
    trim_of_no_suffix _ _ h
  calc resolve_url (resolve_url u)
      = trim_end_matches (trim_end_matches (resolve_url u) ['/'])
          ['.', 'g', 'i', 't'] := rfl
    _ = trim_end_matches (resolve_url u) ['.', 'g', 'i', 't'] := by rw [h2]
    _ = resolve_url u := trim_of_no_suffix _ _ hgit

/-- C5 (witness): the amended statement applied to a URL whose resolved
form ends in neither a slash nor `.git`. -/
theorem claim_c5_amended_witness :
    (['/'] : List Char).isSuffixOf (resolve_url ['a', '.', 'g', 'i', 't'])
        = false ∧
    resolve_url (resolve_url ['a', '.', 'g', 'i', 't'])
        = resolve_url ['a', '.', 'g', 'i', 't'] :=
  ⟨by decide,
    (claim_c5_amended_conditional_idempotence ['a', '.', 'g', 'i', 't']
      (by decide)).2⟩

/-- Abstract filesystem for the C8 theorems: `u` is an unreadable regular
file, `v` is a regular file reading as `hello`, everything else is not a
regular file. -/
def exFs8 : String → FileKind := fun p =>
  if p = "u" then .unreadable else if p = "v" then .text "hello" else .notFile

/-- C8 (counterexample): the claim says a file that cannot be decoded as
text is omitted from the output — no block for it appears. The code writes
the header line before attempting the read, so the unreadable file `u`
leaves its header block in the output file (while the warning, the
continuation and the `Ok` return do hold). -/
theorem claim_c8_counterexample :
    (write_files exFs8 ["u"]).out = "// File: u\n" ∧
    (write_files exFs8 ["u"]).out ≠ "" ∧
    (write_files exFs8 ["u"]).warnings = ["Warning: Could not read file u"] ∧
    (write_files exFs8 ["u"]).ok = true := by
  refine ⟨by decide, by decide, by decide, by decide⟩

/-- C8 (amended): `write_files` always returns success; processing one
path appends that path's block and warning and then continues with the
remaining files unchanged; a non-regular-file entry contributes no output
and no warning (silent skip); an unreadable regular file contributes
exactly its header line — written before the read is attempted, so the
file's content is omitted but its header block still appears — plus one
warning; a readable file contributes header, content and a blank line. The
output is rebuilt from scratch on each invocation (the model's output is a
function of the inputs alone, as `File::create` truncates). -/
theorem claim_c8_amended_warn_skip_continue (fs : String → FileKind)
    (files : List String) :
    (write_files fs files).ok = true ∧
    (∀ p rest, (write_files fs (p :: rest)).out
        = write_files_block fs p ++ (write_files fs rest).out) ∧
    (∀ p rest, (write_files fs (p :: rest)).warnings
        = write_files_warnings fs p ++ (write_files fs rest).warnings) ∧
    (∀ p, fs p = .notFile →
        write_files_block fs p = "" ∧ write_files_warnings fs p = []) ∧
    (∀ p, fs p = .unreadable →
        write_files_block fs p = "// File: " ++ p ++ "\n" ∧
        write_files_warnings fs p = ["Warning: Could not read file " ++ p]) ∧
    (∀ p c, fs p = .text c →
        write_files_block fs p = "// File: " ++ p ++ "\n" ++ c ++ "\n\n" ∧
        write_files_warnings fs p = []) := by
  refine ⟨rfl, fun p rest => rfl, fun p rest => by simp [write_files], ?_, ?_, ?_⟩
  · intro p hp
    exact ⟨by simp [write_files_block, hp], by simp [write_files_warnings, hp]⟩
  · intro p hp
    exact ⟨by simp [write_files_block, hp], by simp [write_files_warnings, hp]⟩
  · intro p c hp
    exact ⟨by simp [write_files_block, hp], by simp [write_files_warnings, hp]⟩

/-- C8 (witness): the amended statement applied to the concrete
filesystem and file list `u`, `v`, `w` (unreadable, readable, and not a
regular file). -/
theorem claim_c8_amended_witness :
    (write_files exFs8 ["u", "v", "w"]).ok = true ∧
    exFs8 "u" = FileKind.unreadable ∧
    write_files_block exFs8 "u" = "// File: " ++ "u" ++ "\n" ∧
    write_files_warnings exFs8 "u" = ["Warning: Could not read file " ++ "u"] ∧
    (write_files exFs8 ["u", "v", "w"]).out
        = write_files_block exFs8 "u" ++ (write_files exFs8 ["v", "w"]).out := by
  have h := claim_c8_amended_warn_skip_continue exFs8 ["u", "v", "w"]
  have hu := h.2.2.2.2.1 "u" (by decide)
  exact ⟨h.1, by decide, hu.1, hu.2, h.2.1 "u" ["v", "w"]⟩
